import Mathlib

/-!
# timeoutconn: idle-timeout wrappers for net.Listener and net.Conn

A shallow embedding of `conn.go`.

* The environment (the wrapped `net.Listener`, the wrapped `net.Conn`, `net.Listen`) is kept
  abstract: an interface is a record of methods over an explicit state type.
* `time.Timer` is modelled by its deadline on a virtual clock and a pending flag.  The clock
  is advanced by explicit `sleep` steps; a pending timer whose deadline has been reached runs
  its function at such a step.  A method call of the wrapper is one atomic step.
* Every call that leaves the wrapper (timer creation, timer reset, timer firing, a call of
  the wrapped connection) is appended to a trace of effects.
-/

namespace timeoutconn

/-! ## Environment -/

/-- Go `error` values that are not nil. `ErrClosed` is `net.ErrClosed`, `EOF` is `io.EOF`. -/
inductive Error where
  | ErrClosed
  | EOF
  | other (code : Nat)
  deriving DecidableEq, Repr

/-- Values of `time.Duration` and instants of the virtual clock, in nanoseconds. -/
abbrev Duration := Int

/-- A byte slice. -/
abbrev Bytes := List Nat

/-- The `(int, error)` pair returned by `Read` and `Write`. -/
abbrev IOResult := Int × Option Error

/-- The methods of `net.Conn` that `timeoutConn` overrides, over the state `σ` of the
wrapped stream. -/
structure ConnOps (σ : Type) where
  Read : σ → Bytes → σ × IOResult
  Write : σ → Bytes → σ × IOResult
  Close : σ → σ × Option Error

/-- The `Accept` method of the wrapped `net.Listener`, over the state `ℓ` of the listener:
either a new connection or a non-nil error. -/
structure ListenerOps (ℓ σ : Type) where
  Accept : ℓ → ℓ × Except Error σ

/-! ## Timers -/

/-- The function values handed to `time.AfterFunc` in this package; the only one is the
closure `func() { c.Close() }` of `startTimer`. -/
inductive TimerFunc where
  | callClose
  deriving DecidableEq, Repr

/-- A `time.Timer` made by `time.AfterFunc`: its deadline, whether it is still scheduled,
and the function it runs. -/
structure Timer where
  when : Int
  pending : Bool
  f : TimerFunc
  deriving DecidableEq, Repr

/-- Deadline of a timer set at instant `now` for duration `d` (the Go runtime sets a timer
with a non-positive duration to the current instant). -/
def timeWhen (now : Int) (d : Duration) : Int :=
  if d ≤ 0 then now else now + d

/-- Model of `time.AfterFunc(d, f)` called at instant `now`. -/
def AfterFunc (now : Int) (d : Duration) (f : TimerFunc) : Timer :=
  { when := timeWhen now d, pending := true, f := f }

/-- Model of `t.Reset(d)` called at instant `now`: the timer is scheduled again, whether or
not it had expired. -/
def Timer.Reset (t : Timer) (now : Int) (d : Duration) : Timer :=
  { t with when := timeWhen now d, pending := true }

/-- Calls that leave the wrapper, in the order they happen. -/
inductive Effect where
  | afterFunc (d : Duration) (f : TimerFunc)
  | timerReset (d : Duration)
  | timerFire
  | connRead (b : Bytes)
  | connWrite (b : Bytes)
  | connClose
  deriving DecidableEq, Repr

/-! ## The wrappers -/

/-- The struct `timeoutListener`. -/
structure timeoutListener (ℓ : Type) where
  Listener : ℓ
  timeout : Duration

/-- The struct `timeoutConn`; `closeTimer` is a pointer that may be nil. -/
structure timeoutConn (σ : Type) where
  Conn : σ
  timeout : Duration
  closeTimer : Option Timer

/-- A value of interface type `net.Conn` as returned by `Accept`: nil, the connection of the
wrapped listener itself, or a `*timeoutConn`. -/
inductive ConnValue (σ : Type) where
  | nil
  | raw (nc : σ)
  | wrapped (c : timeoutConn σ)

/-- One connection in its environment: the clock, the connection and the effects so far. -/
structure World (σ : Type) where
  now : Int
  c : timeoutConn σ
  trace : List Effect

/-- The method `timeoutConn.Close`. -/
def timeoutConn.Close {σ : Type} (I : ConnOps σ) (w : World σ) : Option Error × World σ :=
  let r := I.Close w.c.Conn
  (r.2, { w with c := { w.c with Conn := r.1 }, trace := w.trace ++ [Effect.connClose] })

/-- The method `timeoutConn.startTimer`. -/
def timeoutConn.startTimer {σ : Type} (w : World σ) : World σ :=
  { w with
    c := { w.c with closeTimer := some (AfterFunc w.now w.c.timeout TimerFunc.callClose) },
    trace := w.trace ++ [Effect.afterFunc w.c.timeout TimerFunc.callClose] }

/-- The method `timeoutConn.resetTimer`. -/
def timeoutConn.resetTimer {σ : Type} (w : World σ) : World σ :=
  match w.c.closeTimer with
  | none => w
  | some t =>
    { w with
      c := { w.c with closeTimer := some (t.Reset w.now w.c.timeout) },
      trace := w.trace ++ [Effect.timerReset w.c.timeout] }

/-- The method `timeoutConn.Read`. -/
def timeoutConn.Read {σ : Type} (I : ConnOps σ) (w : World σ) (b : Bytes) :
    IOResult × World σ :=
  let w1 := timeoutConn.resetTimer w
  let r := I.Read w1.c.Conn b
  (r.2, { w1 with c := { w1.c with Conn := r.1 }, trace := w1.trace ++ [Effect.connRead b] })

/-- The method `timeoutConn.Write`. -/
def timeoutConn.Write {σ : Type} (I : ConnOps σ) (w : World σ) (b : Bytes) :
    IOResult × World σ :=
  let w1 := timeoutConn.resetTimer w
  let r := I.Write w1.c.Conn b
  (r.2, { w1 with c := { w1.c with Conn := r.1 }, trace := w1.trace ++ [Effect.connWrite b] })

/-- What `timeoutListener.Accept` leaves behind: the wrapped listener after the call, the two
returned values, and the effects of the call. -/
structure AcceptResult (ℓ σ : Type) where
  listener : timeoutListener ℓ
  conn : ConnValue σ
  err : Option Error
  effects : List Effect

/-- The method `timeoutListener.Accept`, called at instant `now`. -/
def timeoutListener.Accept {ℓ σ : Type} (L : ListenerOps ℓ σ) (l : timeoutListener ℓ)
    (now : Int) : AcceptResult ℓ σ :=
  let r := L.Accept l.Listener
  let l1 : timeoutListener ℓ := { l with Listener := r.1 }
  match r.2 with
  | Except.error err => { listener := l1, conn := ConnValue.nil, err := some err, effects := [] }
  | Except.ok nc =>
    let w := timeoutConn.startTimer
      { now := now, c := { Conn := nc, timeout := l.timeout, closeTimer := none }, trace := [] }
    { listener := l1, conn := ConnValue.wrapped w.c, err := none, effects := w.trace }

/-- The function `NewListener`. -/
def NewListener {ℓ : Type} (l : ℓ) (timeout : Duration) : timeoutListener ℓ :=
  { Listener := l, timeout := timeout }

/-- The function `Listen`; `netListen` stands for `net.Listen`. The result is the pair
`(net.Listener, error)`, a nil listener being `none`. -/
def Listen {ℓ : Type} (netListen : String → String → Except Error ℓ)
    (network address : String) (timeout : Duration) :
    Option (timeoutListener ℓ) × Option Error :=
  match netListen network address with
  | Except.error err => (none, some err)
  | Except.ok ln => (some (NewListener ln timeout), none)

/-! ## Timed step model -/

/-- Runs the function of a timer. -/
def TimerFunc.run {σ : Type} (I : ConnOps σ) (w : World σ) : TimerFunc → World σ
  | TimerFunc.callClose => (timeoutConn.Close I w).2

/-- If the connection's timer is pending and its deadline has been reached, the timer
expires and runs its function. -/
def fireDue {σ : Type} (I : ConnOps σ) (w : World σ) : World σ :=
  match w.c.closeTimer with
  | none => w
  | some t =>
    if t.pending = true ∧ t.when ≤ w.now then
      t.f.run I
        { w with
          c := { w.c with closeTimer := some { t with pending := false } },
          trace := w.trace ++ [Effect.timerFire] }
    else w

/-- The clock advances by `dt`. -/
def sleep {σ : Type} (I : ConnOps σ) (w : World σ) (dt : Nat) : World σ :=
  fireDue I { w with now := w.now + dt }

/-- What can happen to an accepted connection. -/
inductive Event where
  | sleep (dt : Nat)
  | read (b : Bytes)
  | write (b : Bytes)
  | close
  deriving DecidableEq, Repr

/-- Whether the event is a `Read` or a `Write`. -/
def Event.isActivity : Event → Bool
  | Event.read _ => true
  | Event.write _ => true
  | _ => false

/-- Time that passes during the event. -/
def Event.duration : Event → Nat
  | Event.sleep dt => dt
  | _ => 0

/-- One event. -/
def step {σ : Type} (I : ConnOps σ) (w : World σ) : Event → World σ
  | Event.sleep dt => sleep I w dt
  | Event.read b => (timeoutConn.Read I w b).2
  | Event.write b => (timeoutConn.Write I w b).2
  | Event.close => (timeoutConn.Close I w).2

/-- A sequence of events. -/
def run {σ : Type} (I : ConnOps σ) (w : World σ) (es : List Event) : World σ :=
  es.foldl (step I) w

/-- Total time that passes during the events. -/
def elapsed (es : List Event) : Nat :=
  (es.map Event.duration).sum

/-- The world of the connection returned by an `Accept` at instant `now`, if one is. -/
def acceptWorld {ℓ σ : Type} (L : ListenerOps ℓ σ) (l : timeoutListener ℓ) (now : Int) :
    Option (World σ) :=
  let r := timeoutListener.Accept L l now
  match r.conn with
  | ConnValue.wrapped c => some { now := now, c := c, trace := r.effects }
  | _ => none

/-- Number of times the watchdog has fired. -/
def fireCount (tr : List Effect) : Nat :=
  tr.count Effect.timerFire

/-- Number of calls of the wrapped connection's `Close`. -/
def closeCount (tr : List Effect) : Nat :=
  tr.count Effect.connClose

/-! ## A concrete stream, for closed instances -/

/-- State of a simple stream: whether it is closed, and how many bytes it has carried. -/
structure PipeState where
  closed : Bool
  carried : Nat
  deriving DecidableEq, Repr

/-- A stream that carries the whole buffer while open and fails with `ErrClosed` once
closed, also for a second `Close`. -/
def pipeOps : ConnOps PipeState where
  Read s b :=
    if s.closed then (s, (0, some Error.ErrClosed))
    else ({ s with carried := s.carried + b.length }, ((b.length : Int), none))
  Write s b :=
    if s.closed then (s, (0, some Error.ErrClosed))
    else ({ s with carried := s.carried + b.length }, ((b.length : Int), none))
  Close s :=
    if s.closed then (s, some Error.ErrClosed) else ({ s with closed := true }, none)

/-- A listener that hands out one fresh pipe per unit of its counter, then fails. -/
def pipeListener : ListenerOps Nat PipeState where
  Accept n :=
    match n with
    | 0 => (0, Except.error Error.EOF)
    | k + 1 => (k, Except.ok { closed := false, carried := 0 })

/-- A `net.Listen` that always succeeds with a listener holding one connection. -/
def pipeListen : String → String → Except Error Nat :=
  fun _ _ => Except.ok 1

/-- The world of the connection accepted at instant 0 from `pipeListener` wrapped with
timeout `d`. -/
def pipeWorld (d : Duration) : World PipeState :=
  timeoutConn.startTimer
    { now := 0,
      c := { Conn := { closed := false, carried := 0 }, timeout := d, closeTimer := none },
      trace := [] }

/-- What the timed properties need of the wrapped stream: `Close` closes it, a closed stream
stays closed, and `Read` and `Write` on a closed stream fail with `ErrClosed`. -/
structure ClosedLaws {σ : Type} (I : ConnOps σ) (closed : σ → Prop) : Prop where
  close_closes : ∀ s, closed (I.Close s).1
  read_stays : ∀ s b, closed s → closed (I.Read s b).1
  write_stays : ∀ s b, closed s → closed (I.Write s b).1
  read_fails : ∀ s b, closed s → (I.Read s b).2.2 = some Error.ErrClosed
  write_fails : ∀ s b, closed s → (I.Write s b).2.2 = some Error.ErrClosed

/-- The events of a schedule of calls, each issued `gap` after the one before it (the first
one `gap` after `Accept`). -/
def schedule : List (Nat × Event) → List Event
  | [] => []
  | (gap, e) :: rest => Event.sleep gap :: e :: schedule rest

/-- The watchdog is armed for a full timeout `d` from the present instant. -/
def Armed {σ : Type} (d : Duration) (w : World σ) : Prop :=
  w.c.timeout = d ∧
    ∃ t, w.c.closeTimer = some t ∧ t.pending = true ∧ t.when = w.now + d

/-- State of a connection during a silence that started with the watchdog armed for instant
`T` after `k` earlier firings: either the watchdog is still pending for `T`, which lies
ahead, or it has fired once more and the stream is closed. -/
def SilentInv {σ : Type} (closed : σ → Prop) (T : Int) (k : Nat) (w : World σ) : Prop :=
  ∃ t, w.c.closeTimer = some t ∧
    ((t.pending = true ∧ t.when = T ∧ w.now < T ∧ fireCount w.trace = k) ∨
     (t.pending = false ∧ closed w.c.Conn ∧ fireCount w.trace = k + 1))

/-! ## Basic facts -/

theorem resetTimer_Conn {σ : Type} (w : World σ) :
    (timeoutConn.resetTimer w).c.Conn = w.c.Conn := by
  unfold timeoutConn.resetTimer
  split <;> rfl

theorem resetTimer_timeout {σ : Type} (w : World σ) :
    (timeoutConn.resetTimer w).c.timeout = w.c.timeout := by
  unfold timeoutConn.resetTimer
  split <;> rfl

theorem resetTimer_now {σ : Type} (w : World σ) :
    (timeoutConn.resetTimer w).now = w.now := by
  unfold timeoutConn.resetTimer
  split <;> rfl

theorem resetTimer_some {σ : Type} (w : World σ) (t : Timer) (h : w.c.closeTimer = some t) :
    timeoutConn.resetTimer w =
      { w with
        c := { w.c with closeTimer := some (t.Reset w.now w.c.timeout) },
        trace := w.trace ++ [Effect.timerReset w.c.timeout] } := by
  unfold timeoutConn.resetTimer
  rw [h]

/-! ## Accept -/

/-- C1: when the wrapped listener's Accept succeeds with connection `nc`, Accept returns a nil
error and a `timeoutConn` around `nc` with the listener's timeout, whose timer has been
created by `time.AfterFunc` with that timeout and is pending; the returned value is neither
nil nor the bare `nc`. The timer's action is a call of this connection's Close: running the
timer's function in any world is `timeoutConn.Close` there, and when the clock reaches the
timer's deadline on the accepted connection the timer fires and the wrapped stream `nc` is
closed by its own Close. -/
theorem accept_wraps_and_arms {ℓ σ : Type} (L : ListenerOps ℓ σ) (l : timeoutListener ℓ)
    (now : Int) (nc : σ) (h : (L.Accept l.Listener).2 = Except.ok nc) :
    (timeoutListener.Accept L l now).err = none ∧
    (timeoutListener.Accept L l now).conn =
      ConnValue.wrapped
        { Conn := nc, timeout := l.timeout,
          closeTimer := some (AfterFunc now l.timeout TimerFunc.callClose) } ∧
    (AfterFunc now l.timeout TimerFunc.callClose).pending = true ∧
    (AfterFunc now l.timeout TimerFunc.callClose).f = TimerFunc.callClose ∧
    (AfterFunc now l.timeout TimerFunc.callClose).when = timeWhen now l.timeout ∧
    (timeoutListener.Accept L l now).effects =
      [Effect.afterFunc l.timeout TimerFunc.callClose] ∧
    (timeoutListener.Accept L l now).conn ≠ ConnValue.nil ∧
    (∀ raw, (timeoutListener.Accept L l now).conn ≠ ConnValue.raw raw) ∧
    (∀ (I : ConnOps σ) (w : World σ),
      (AfterFunc now l.timeout TimerFunc.callClose).f.run I w = (timeoutConn.Close I w).2) ∧
    acceptWorld L l now = some
      { now := now,
        c := { Conn := nc, timeout := l.timeout,
               closeTimer := some (AfterFunc now l.timeout TimerFunc.callClose) },
        trace := [Effect.afterFunc l.timeout TimerFunc.callClose] } ∧
    (∀ (I : ConnOps σ) (w0 : World σ), acceptWorld L l now = some w0 →
      ∀ dt : Nat, timeWhen now l.timeout ≤ now + dt →
        (sleep I w0 dt).trace =
          [Effect.afterFunc l.timeout TimerFunc.callClose, Effect.timerFire,
           Effect.connClose] ∧
        (sleep I w0 dt).c.Conn = (I.Close nc).1 ∧
        (sleep I w0 dt).c.closeTimer =
          some { when := timeWhen now l.timeout, pending := false,
                 f := TimerFunc.callClose }) := by
  have hacc : acceptWorld L l now = some
      { now := now,
        c := { Conn := nc, timeout := l.timeout,
               closeTimer := some (AfterFunc now l.timeout TimerFunc.callClose) },
        trace := [Effect.afterFunc l.timeout TimerFunc.callClose] } := by
    simp [acceptWorld, timeoutListener.Accept, h, timeoutConn.startTimer]
  refine ⟨?_, ?_, rfl, rfl, rfl, ?_, ?_, ?_, fun I w => rfl, hacc, ?_⟩
  · simp [timeoutListener.Accept, h]
  · simp [timeoutListener.Accept, h, timeoutConn.startTimer]
  · simp [timeoutListener.Accept, h, timeoutConn.startTimer]
  · simp [timeoutListener.Accept, h]
  · simp [timeoutListener.Accept, h]
  · intro I w0 hw0 dt hdue
    rw [hacc] at hw0
    cases hw0
    simp [sleep, fireDue, AfterFunc, hdue, TimerFunc.run, timeoutConn.Close]

/-- Instance of C1 on the pipe listener wrapped with timeout 5: the accepted connection is
wrapped and armed for instant 5, and at instant 5 the timer fires and closes the pipe. -/
theorem accept_wraps_and_arms_witness :
    (pipeListener.Accept (NewListener 1 5).Listener).2
      = Except.ok { closed := false, carried := 0 } ∧
    (timeoutListener.Accept pipeListener (NewListener 1 5) 0).conn =
      ConnValue.wrapped
        { Conn := { closed := false, carried := 0 }, timeout := 5,
          closeTimer := some { when := 5, pending := true, f := TimerFunc.callClose } } ∧
    (sleep pipeOps (pipeWorld 5) 5).trace =
      [Effect.afterFunc 5 TimerFunc.callClose, Effect.timerFire, Effect.connClose] ∧
    (sleep pipeOps (pipeWorld 5) 5).c.Conn = { closed := true, carried := 0 } :=
  ⟨rfl,
    (accept_wraps_and_arms pipeListener (NewListener 1 5) 0
      { closed := false, carried := 0 } rfl).2.1,
    ((accept_wraps_and_arms pipeListener (NewListener 1 5) 0
      { closed := false, carried := 0 } rfl).2.2.2.2.2.2.2.2.2.2
        pipeOps (pipeWorld 5) rfl 5 (by decide)).1,
    ((accept_wraps_and_arms pipeListener (NewListener 1 5) 0
      { closed := false, carried := 0 } rfl).2.2.2.2.2.2.2.2.2.2
        pipeOps (pipeWorld 5) rfl 5 (by decide)).2.1⟩

/-- C2: when the wrapped listener's Accept fails with error `e`, Accept returns a nil
connection together with `e` itself, and no timer is created. -/
theorem accept_propagates_failure {ℓ σ : Type} (L : ListenerOps ℓ σ) (l : timeoutListener ℓ)
    (now : Int) (e : Error) (h : (L.Accept l.Listener).2 = Except.error e) :
    (timeoutListener.Accept L l now).conn = (ConnValue.nil : ConnValue σ) ∧
    (timeoutListener.Accept L l now).err = some e ∧
    (timeoutListener.Accept L l now).effects = [] := by
  simp [timeoutListener.Accept, h]

/-- Instance of C2 on the pipe listener that has no connection left. -/
theorem accept_propagates_failure_witness :
    (pipeListener.Accept (NewListener 0 5).Listener).2 = Except.error Error.EOF ∧
    (timeoutListener.Accept pipeListener (NewListener 0 5) 0).err = some Error.EOF ∧
    (timeoutListener.Accept pipeListener (NewListener 0 5) 0).effects = [] :=
  ⟨rfl, (accept_propagates_failure pipeListener (NewListener 0 5) 0 Error.EOF rfl).2⟩

/-! ## Read, Write, Close -/

/-- C3: on a connection whose timer is set (armed or not), Read and Write each add exactly
two effects to the trace, first one reset of the timer to the connection's timeout and then
the call of the wrapped stream's Read or Write with the same buffer; the timer is left reset
to that timeout. -/
theorem read_write_reset_then_delegate {σ : Type} (I : ConnOps σ) (w : World σ) (t : Timer)
    (b : Bytes) (ht : w.c.closeTimer = some t) :
    (timeoutConn.Read I w b).2.trace =
      w.trace ++ [Effect.timerReset w.c.timeout, Effect.connRead b] ∧
    (timeoutConn.Read I w b).2.c.closeTimer = some (t.Reset w.now w.c.timeout) ∧
    (timeoutConn.Write I w b).2.trace =
      w.trace ++ [Effect.timerReset w.c.timeout, Effect.connWrite b] ∧
    (timeoutConn.Write I w b).2.c.closeTimer = some (t.Reset w.now w.c.timeout) := by
  simp [timeoutConn.Read, timeoutConn.Write, resetTimer_some w t ht]

/-- Instance of C3 on the connection accepted with timeout 5. -/
theorem read_write_reset_then_delegate_witness :
    (pipeWorld 5).c.closeTimer = some { when := 5, pending := true, f := TimerFunc.callClose } ∧
    (timeoutConn.Read pipeOps (pipeWorld 5) [1, 2]).2.trace =
      [Effect.afterFunc 5 TimerFunc.callClose, Effect.timerReset 5, Effect.connRead [1, 2]] :=
  ⟨rfl, (read_write_reset_then_delegate pipeOps (pipeWorld 5)
    { when := 5, pending := true, f := TimerFunc.callClose } [1, 2] rfl).1⟩

/-- C4: Read, Write and Close return exactly what the wrapped stream's Read, Write and Close
return when called on the stream as it is at that call, with the same buffer, and leave the
stream in the state the wrapped call left it in; this includes a second Close, which returns
what the wrapped stream's second Close returns. -/
theorem results_are_the_delegates {σ : Type} (I : ConnOps σ) (w : World σ) (b : Bytes) :
    (timeoutConn.Read I w b).1 = (I.Read w.c.Conn b).2 ∧
    (timeoutConn.Read I w b).2.c.Conn = (I.Read w.c.Conn b).1 ∧
    (timeoutConn.Write I w b).1 = (I.Write w.c.Conn b).2 ∧
    (timeoutConn.Write I w b).2.c.Conn = (I.Write w.c.Conn b).1 ∧
    (timeoutConn.Close I w).1 = (I.Close w.c.Conn).2 ∧
    (timeoutConn.Close I w).2.c.Conn = (I.Close w.c.Conn).1 ∧
    (timeoutConn.Close I (timeoutConn.Close I w).2).1 =
      (I.Close (I.Close w.c.Conn).1).2 := by
  simp [timeoutConn.Read, timeoutConn.Write, timeoutConn.Close, resetTimer_Conn]

/-! ## Steps of the timed model -/

theorem run_cons {σ : Type} (I : ConnOps σ) (w : World σ) (e : Event) (es : List Event) :
    run I w (e :: es) = run I (step I w e) es := rfl

theorem run_append {σ : Type} (I : ConnOps σ) (w : World σ) (es fs : List Event) :
    run I w (es ++ fs) = run I (run I w es) fs := by
  simp [run, List.foldl_append]

theorem elapsed_cons (e : Event) (es : List Event) :
    elapsed (e :: es) = e.duration + elapsed es := by
  simp [elapsed]

theorem fireCount_append (tr ex : List Effect) :
    fireCount (tr ++ ex) = fireCount tr + fireCount ex := by
  simp [fireCount, List.count_append]

theorem closeCount_append (tr ex : List Effect) :
    closeCount (tr ++ ex) = closeCount tr + closeCount ex := by
  simp [closeCount, List.count_append]

theorem fireCount_close : fireCount [Effect.connClose] = 0 := by decide

theorem fireCount_fire_close : fireCount [Effect.timerFire, Effect.connClose] = 1 := by
  decide

theorem sleep_quiet {σ : Type} (I : ConnOps σ) (w : World σ) (t : Timer) (dt : Nat)
    (ht : w.c.closeTimer = some t) (h : t.pending = false ∨ w.now + dt < t.when) :
    sleep I w dt = { w with now := w.now + dt } := by
  unfold sleep fireDue
  simp only [ht]
  rw [if_neg]
  rintro ⟨hp, hw⟩
  rcases h with h | h
  · rw [h] at hp; exact Bool.false_ne_true hp
  · exact absurd hw (not_le.mpr h)

theorem sleep_fires {σ : Type} (I : ConnOps σ) (w : World σ) (t : Timer) (dt : Nat)
    (ht : w.c.closeTimer = some t) (hp : t.pending = true) (hw : t.when ≤ w.now + dt) :
    sleep I w dt =
      { now := w.now + dt,
        c := { Conn := (I.Close w.c.Conn).1, timeout := w.c.timeout,
               closeTimer := some { t with pending := false } },
        trace := w.trace ++ [Effect.timerFire, Effect.connClose] } := by
  unfold sleep fireDue
  simp only [ht]
  rw [if_pos ⟨hp, hw⟩]
  cases t with
  | mk when pending f =>
    cases f
    simp [TimerFunc.run, timeoutConn.Close]

theorem step_activity_armed {σ : Type} (I : ConnOps σ) (w : World σ) (e : Event)
    (d : Duration) (hd : 0 < d) (hto : w.c.timeout = d) (hs : ∃ t, w.c.closeTimer = some t)
    (he : e.isActivity = true) :
    Armed d (step I w e) ∧ (step I w e).now = w.now := by
  obtain ⟨t, ht⟩ := hs
  have hwhen : timeWhen w.now d = w.now + d := by
    unfold timeWhen
    rw [if_neg (not_le.mpr hd)]
  cases e with
  | sleep dt => simp [Event.isActivity] at he
  | close => simp [Event.isActivity] at he
  | read b =>
    simp [step, timeoutConn.Read, resetTimer_some w t ht, Armed, hto, Timer.Reset, hwhen]
  | write b =>
    simp [step, timeoutConn.Write, resetTimer_some w t ht, Armed, hto, Timer.Reset, hwhen]

theorem step_keeps_timer {σ : Type} (I : ConnOps σ) (w : World σ) (e : Event) (d : Duration)
    (hto : w.c.timeout = d) (hs : ∃ t, w.c.closeTimer = some t) :
    (step I w e).c.timeout = d ∧ ∃ t, (step I w e).c.closeTimer = some t := by
  obtain ⟨t, ht⟩ := hs
  cases e with
  | sleep dt =>
    by_cases h : t.pending = true ∧ t.when ≤ w.now + dt
    · simp [step, sleep_fires I w t dt ht h.1 h.2, hto]
    · have h2 : t.pending = false ∨ w.now + dt < t.when := by
        by_cases hp : t.pending = true
        · exact Or.inr (not_le.mp (fun hw => h ⟨hp, hw⟩))
        · exact Or.inl (by simpa using hp)
      simp [step, sleep_quiet I w t dt ht h2, hto, ht]
  | close => simp [step, timeoutConn.Close, hto, ht]
  | read b => simp [step, timeoutConn.Read, resetTimer_some w t ht, hto]
  | write b => simp [step, timeoutConn.Write, resetTimer_some w t ht, hto]

theorem run_keeps_timer {σ : Type} (I : ConnOps σ) (d : Duration) (es : List Event) :
    ∀ w : World σ, w.c.timeout = d → (∃ t, w.c.closeTimer = some t) →
      (run I w es).c.timeout = d ∧ ∃ t, (run I w es).c.closeTimer = some t := by
  induction es with
  | nil => intro w h1 h2; exact ⟨h1, h2⟩
  | cons e es ih =>
    intro w h1 h2
    rw [run_cons]
    exact ih _ (step_keeps_timer I w e d h1 h2).1 (step_keeps_timer I w e d h1 h2).2

theorem acceptWorld_armed {ℓ σ : Type} (L : ListenerOps ℓ σ) (l : timeoutListener ℓ)
    (t0 : Int) (w0 : World σ) (hacc : acceptWorld L l t0 = some w0) (hd : 0 < l.timeout) :
    Armed l.timeout w0 ∧ w0.trace = [Effect.afterFunc l.timeout TimerFunc.callClose] := by
  have hwhen : timeWhen t0 l.timeout = t0 + l.timeout := by
    unfold timeWhen
    rw [if_neg (not_le.mpr hd)]
  unfold acceptWorld timeoutListener.Accept at hacc
  cases hr : (L.Accept l.Listener).2 with
  | error e => simp [hr] at hacc
  | ok nc =>
    simp [hr, timeoutConn.startTimer] at hacc
    subst hacc
    simp [Armed, AfterFunc, hwhen]

theorem step_stays_closed {σ : Type} (I : ConnOps σ) (closed : σ → Prop)
    (laws : ClosedLaws I closed) (w : World σ) (e : Event) (hc : closed w.c.Conn) :
    closed (step I w e).c.Conn := by
  cases e with
  | sleep dt =>
    simp only [step, sleep, fireDue]
    split
    · exact hc
    · split
      · rename_i t _ _
        cases t with
        | mk when pending f =>
          cases f
          exact laws.close_closes _
      · exact hc
  | close => exact laws.close_closes _
  | read b =>
    simp only [step, timeoutConn.Read, resetTimer_Conn]
    exact laws.read_stays _ _ hc
  | write b =>
    simp only [step, timeoutConn.Write, resetTimer_Conn]
    exact laws.write_stays _ _ hc

theorem run_stays_closed {σ : Type} (I : ConnOps σ) (closed : σ → Prop)
    (laws : ClosedLaws I closed) (es : List Event) :
    ∀ w : World σ, closed w.c.Conn → closed (run I w es).c.Conn := by
  induction es with
  | nil => intro w hc; exact hc
  | cons e es ih =>
    intro w hc
    rw [run_cons]
    exact ih _ (step_stays_closed I closed laws w e hc)

theorem step_silent {σ : Type} (I : ConnOps σ) (closed : σ → Prop)
    (laws : ClosedLaws I closed) (T : Int) (k : Nat) (w : World σ) (e : Event)
    (he : e.isActivity = false) (hinv : SilentInv closed T k w) :
    SilentInv closed T k (step I w e) ∧ (step I w e).now = w.now + e.duration := by
  obtain ⟨t, ht, hcase⟩ := hinv
  cases e with
  | read b => simp [Event.isActivity] at he
  | write b => simp [Event.isActivity] at he
  | close =>
    refine ⟨⟨t, ?_, ?_⟩, ?_⟩
    · simpa [step, timeoutConn.Close] using ht
    · rcases hcase with ⟨hp, hw, hn, hk⟩ | ⟨hp, _, hk⟩
      · left
        refine ⟨hp, hw, ?_, ?_⟩
        · simpa [step, timeoutConn.Close] using hn
        · simp [step, timeoutConn.Close, fireCount_append, hk, fireCount_close]
      · right
        refine ⟨hp, laws.close_closes _, ?_⟩
        simp [step, timeoutConn.Close, fireCount_append, hk, fireCount_close]
    · simp [step, timeoutConn.Close, Event.duration]
  | sleep dt =>
    rcases hcase with ⟨hp, hw, hn, hk⟩ | ⟨hp, hc, hk⟩
    · by_cases hdue : t.when ≤ w.now + dt
      · rw [step, sleep_fires I w t dt ht hp hdue]
        refine ⟨⟨{ t with pending := false }, rfl, Or.inr ⟨rfl, laws.close_closes _, ?_⟩⟩, ?_⟩
        · simp [fireCount_append, hk, fireCount_fire_close]
        · simp [Event.duration]
      · have hlt : w.now + dt < t.when := not_le.mp hdue
        rw [step, sleep_quiet I w t dt ht (Or.inr hlt)]
        refine ⟨⟨t, ht, Or.inl ⟨hp, hw, ?_, hk⟩⟩, ?_⟩
        · rw [← hw]; exact hlt
        · simp [Event.duration]
    · rw [step, sleep_quiet I w t dt ht (Or.inl hp)]
      exact ⟨⟨t, ht, Or.inr ⟨hp, hc, hk⟩⟩, by simp [Event.duration]⟩

theorem run_silent {σ : Type} (I : ConnOps σ) (closed : σ → Prop)
    (laws : ClosedLaws I closed) (T : Int) (k : Nat) (sil : List Event) :
    ∀ w : World σ, (∀ e ∈ sil, e.isActivity = false) → SilentInv closed T k w →
      SilentInv closed T k (run I w sil) ∧ (run I w sil).now = w.now + elapsed sil := by
  induction sil with
  | nil => intro w _ hinv; exact ⟨hinv, by simp [run, elapsed]⟩
  | cons e es ih =>
    intro w hsil hinv
    have h1 := step_silent I closed laws T k w e (hsil e (List.mem_cons_self e es)) hinv
    have h2 := ih (step I w e) (fun x hx => hsil x (List.mem_cons_of_mem e hx)) h1.1
    rw [run_cons, elapsed_cons]
    refine ⟨h2.1, ?_⟩
    rw [h2.2, h1.2]
    push_cast
    ring

theorem pre_armed {ℓ σ : Type} (L : ListenerOps ℓ σ) (I : ConnOps σ) (l : timeoutListener ℓ)
    (t0 : Int) (w0 : World σ) (hacc : acceptWorld L l t0 = some w0) (hd : 0 < l.timeout)
    (pre : List Event)
    (hpre : pre = [] ∨ ∃ init e, pre = init ++ [e] ∧ e.isActivity = true) :
    Armed l.timeout (run I w0 pre) := by
  have h0 := (acceptWorld_armed L l t0 w0 hacc hd).1
  rcases hpre with rfl | ⟨init, e, rfl, he⟩
  · exact h0
  · have hk := run_keeps_timer I l.timeout init w0 h0.1
      (by obtain ⟨t, ht, _⟩ := h0.2; exact ⟨t, ht⟩)
    rw [run_append]
    exact (step_activity_armed I (run I w0 init) e l.timeout hd hk.1 hk.2 he).1

theorem pipe_closed_laws : ClosedLaws pipeOps (fun s => s.closed = true) where
  close_closes s := by
    cases h : s.closed <;> simp [pipeOps, h]
  read_stays s b hc := by simp [pipeOps, hc]
  write_stays s b hc := by simp [pipeOps, hc]
  read_fails s b hc := by simp [pipeOps, hc]
  write_fails s b hc := by simp [pipeOps, hc]

theorem call_keeps_alive {σ : Type} (I : ConnOps σ) (w : World σ) (d : Duration)
    (hd : 0 < d) (gap : Nat) (e : Event) (hgap : (gap : Int) < d)
    (he : e.isActivity = true) (ha : Armed d w)
    (hf : fireCount w.trace = 0) (hc : closeCount w.trace = 0) :
    Armed d (step I (sleep I w gap) e) ∧
    fireCount (step I (sleep I w gap) e).trace = 0 ∧
    closeCount (step I (sleep I w gap) e).trace = 0 := by
  obtain ⟨hto, t, ht, _, hw⟩ := ha
  have hq := sleep_quiet I w t gap ht (Or.inr (by rw [hw]; linarith))
  have hs : ∃ t, (sleep I w gap).c.closeTimer = some t := ⟨t, by rw [hq]; exact ht⟩
  have hto2 : (sleep I w gap).c.timeout = d := by rw [hq]; exact hto
  have htr : (sleep I w gap).trace = w.trace := by rw [hq]
  refine ⟨(step_activity_armed I _ e d hd hto2 hs he).1, ?_⟩
  obtain ⟨t2, ht2⟩ := hs
  cases e with
  | sleep dt => simp [Event.isActivity] at he
  | close => simp [Event.isActivity] at he
  | read b =>
    simp only [step, timeoutConn.Read, resetTimer_some _ t2 ht2, htr, List.append_assoc,
      fireCount_append, closeCount_append, hf, hc]
    simp [fireCount, closeCount]
  | write b =>
    simp only [step, timeoutConn.Write, resetTimer_some _ t2 ht2, htr, List.append_assoc,
      fireCount_append, closeCount_append, hf, hc]
    simp [fireCount, closeCount]

theorem schedule_keeps_alive {σ : Type} (I : ConnOps σ) (d : Duration) (hd : 0 < d)
    (calls : List (Nat × Event)) :
    ∀ w : World σ, (∀ p ∈ calls, p.2.isActivity = true) → (∀ p ∈ calls, (p.1 : Int) < d) →
      Armed d w → fireCount w.trace = 0 → closeCount w.trace = 0 →
      Armed d (run I w (schedule calls)) ∧
      fireCount (run I w (schedule calls)).trace = 0 ∧
      closeCount (run I w (schedule calls)).trace = 0 := by
  induction calls with
  | nil => intro w _ _ ha hf hc; exact ⟨ha, hf, hc⟩
  | cons p rest ih =>
    intro w hact hgap ha hf hc
    obtain ⟨gap, e⟩ := p
    have h1 := call_keeps_alive I w d hd gap e (hgap (gap, e) (List.mem_cons_self _ _))
      (hact (gap, e) (List.mem_cons_self _ _)) ha hf hc
    simp only [schedule, run_cons]
    exact ih _ (fun q hq => hact q (List.mem_cons_of_mem _ hq))
      (fun q hq => hgap q (List.mem_cons_of_mem _ hq)) h1.1 h1.2.1 h1.2.2

theorem step_fired_stays {σ : Type} (I : ConnOps σ) (w : World σ) (t : Timer) (e : Event)
    (ht : w.c.closeTimer = some t) (hp : t.pending = false) (he : e.isActivity = false) :
    (step I w e).c.closeTimer = some t ∧ fireCount (step I w e).trace = fireCount w.trace := by
  cases e with
  | read b => simp [Event.isActivity] at he
  | write b => simp [Event.isActivity] at he
  | close => simp [step, timeoutConn.Close, ht, fireCount_append, fireCount_close]
  | sleep dt =>
    rw [step, sleep_quiet I w t dt ht (Or.inl hp)]
    exact ⟨ht, rfl⟩

theorem run_fired_stays {σ : Type} (I : ConnOps σ) (t : Timer) (hp : t.pending = false)
    (es : List Event) :
    ∀ w : World σ, w.c.closeTimer = some t → (∀ e ∈ es, e.isActivity = false) →
      (run I w es).c.closeTimer = some t ∧
      fireCount (run I w es).trace = fireCount w.trace := by
  induction es with
  | nil => intro w ht _; exact ⟨ht, rfl⟩
  | cons e es ih =>
    intro w ht hes
    have h1 := step_fired_stays I w t e ht hp (hes e (List.mem_cons_self e es))
    have h2 := ih (step I w e) h1.1 (fun x hx => hes x (List.mem_cons_of_mem e hx))
    rw [run_cons]
    exact ⟨h2.1, h2.2.trans h1.2⟩

/-! ## Timed properties -/

/-- C5: on an accepted connection with idle duration D > 0 over a stream whose Close closes
it for good and whose Read and Write fail with the closed error once it is closed: after the
last Read or Write (or after Accept, if there was none), a stretch without Read or Write
during which at least D elapses makes the watchdog fire (exactly once) and leaves the wrapped
stream closed, and from then on every Read and every Write fails with the closed error,
whatever happens in between. -/
theorem silence_kills {ℓ σ : Type} (L : ListenerOps ℓ σ) (I : ConnOps σ)
    (closed : σ → Prop) (laws : ClosedLaws I closed) (l : timeoutListener ℓ) (t0 : Int)
    (w0 : World σ) (hacc : acceptWorld L l t0 = some w0) (hd : 0 < l.timeout)
    (pre sil : List Event)
    (hpre : pre = [] ∨ ∃ init e, pre = init ++ [e] ∧ e.isActivity = true)
    (hsil : ∀ e ∈ sil, e.isActivity = false)
    (hdur : l.timeout ≤ (elapsed sil : Int)) :
    fireCount (run I (run I w0 pre) sil).trace = fireCount (run I w0 pre).trace + 1 ∧
    closed (run I (run I w0 pre) sil).c.Conn ∧
    ∀ (post : List Event) (b : Bytes),
      (timeoutConn.Read I (run I (run I (run I w0 pre) sil) post) b).1.2
        = some Error.ErrClosed ∧
      (timeoutConn.Write I (run I (run I (run I w0 pre) sil) post) b).1.2
        = some Error.ErrClosed := by
  obtain ⟨hto, t, ht, hp, hw⟩ := pre_armed L I l t0 w0 hacc hd pre hpre
  have hinv : SilentInv closed ((run I w0 pre).now + l.timeout)
      (fireCount (run I w0 pre).trace) (run I w0 pre) :=
    ⟨t, ht, Or.inl ⟨hp, hw, by linarith, rfl⟩⟩
  obtain ⟨⟨t2, _, hcase⟩, hnow⟩ := run_silent I closed laws _ _ sil (run I w0 pre) hsil hinv
  have hfired : fireCount (run I (run I w0 pre) sil).trace
        = fireCount (run I w0 pre).trace + 1 ∧
      closed (run I (run I w0 pre) sil).c.Conn := by
    rcases hcase with ⟨_, _, hn, _⟩ | ⟨_, hc, hk⟩
    · rw [hnow] at hn
      exact absurd hn (by linarith)
    · exact ⟨hk, hc⟩
  refine ⟨hfired.1, hfired.2, fun post b => ?_⟩
  have hc := run_stays_closed I closed laws post _ hfired.2
  constructor
  · simp only [timeoutConn.Read, resetTimer_Conn]
    exact laws.read_fails _ _ hc
  · simp only [timeoutConn.Write, resetTimer_Conn]
    exact laws.write_fails _ _ hc

/-- Instance of C5: timeout 5, a Read at instant 2, then 5 units without Read or Write. -/
theorem silence_kills_witness :
    acceptWorld pipeListener (NewListener 1 5) 0 = some (pipeWorld 5) ∧
    (NewListener 1 5).timeout ≤ (elapsed [Event.sleep 3, Event.close, Event.sleep 2] : Int) ∧
    fireCount (run pipeOps (run pipeOps (pipeWorld 5) [Event.sleep 2, Event.read [1]])
        [Event.sleep 3, Event.close, Event.sleep 2]).trace
      = fireCount (run pipeOps (pipeWorld 5) [Event.sleep 2, Event.read [1]]).trace + 1 :=
  ⟨rfl, by decide,
    (silence_kills pipeListener pipeOps (fun s => s.closed = true) pipe_closed_laws
      (NewListener 1 5) 0 (pipeWorld 5) rfl (by decide)
      [Event.sleep 2, Event.read [1]] [Event.sleep 3, Event.close, Event.sleep 2]
      (Or.inr ⟨[Event.sleep 2], Event.read [1], rfl, rfl⟩) (by decide) (by decide)).1⟩

/-- C6: on an accepted connection with idle duration D > 0, for every schedule of Read and
Write calls, in any mix, in which the first call is issued less than D after Accept and each
later call less than D after the one before, and for any further wait of less than D after
the last call, the watchdog has not fired and the wrapped stream's Close has not been
called. -/
theorem activity_keeps_alive {ℓ σ : Type} (L : ListenerOps ℓ σ) (I : ConnOps σ)
    (l : timeoutListener ℓ) (t0 : Int) (w0 : World σ)
    (hacc : acceptWorld L l t0 = some w0) (hd : 0 < l.timeout)
    (calls : List (Nat × Event))
    (hact : ∀ p ∈ calls, p.2.isActivity = true)
    (hgap : ∀ p ∈ calls, (p.1 : Int) < l.timeout)
    (last : Nat) (hlast : (last : Int) < l.timeout) :
    fireCount (run I w0 (schedule calls ++ [Event.sleep last])).trace = 0 ∧
    closeCount (run I w0 (schedule calls ++ [Event.sleep last])).trace = 0 := by
  obtain ⟨h0, htr⟩ := acceptWorld_armed L l t0 w0 hacc hd
  have hf0 : fireCount w0.trace = 0 := by rw [htr]; simp [fireCount]
  have hc0 : closeCount w0.trace = 0 := by rw [htr]; simp [closeCount]
  obtain ⟨⟨_, t, ht, _, hw⟩, hf, hc⟩ :=
    schedule_keeps_alive I l.timeout hd calls w0 hact hgap h0 hf0 hc0
  have hq := sleep_quiet I (run I w0 (schedule calls)) t last ht
    (Or.inr (by rw [hw]; linarith))
  have hrun : run I w0 (schedule calls ++ [Event.sleep last])
      = sleep I (run I w0 (schedule calls)) last := by
    rw [run_append]; rfl
  rw [hrun, hq]
  exact ⟨hf, hc⟩

/-- Instance of C6: timeout 5 and calls 4, 4 and 3 units apart. -/
theorem activity_keeps_alive_witness :
    acceptWorld pipeListener (NewListener 1 5) 0 = some (pipeWorld 5) ∧
    fireCount (run pipeOps (pipeWorld 5)
      (schedule [(4, Event.read [1]), (4, Event.write [2]), (3, Event.read [])]
        ++ [Event.sleep 4])).trace = 0 :=
  ⟨rfl,
    (activity_keeps_alive pipeListener pipeOps (NewListener 1 5) 0 (pipeWorld 5) rfl
      (by decide) [(4, Event.read [1]), (4, Event.write [2]), (3, Event.read [])]
      (by decide) (by decide) 4 (by decide)).1⟩

/-! ## Close and the watchdog -/

/-- C7 as stated fails: on the connection accepted with timeout 5, after an explicit Close
the timer is still pending for instant 5, and when the clock reaches 5 it fires and calls
Close a second time. -/
theorem close_does_not_stop_timer_example :
    acceptWorld pipeListener (NewListener 1 5) 0 = some (pipeWorld 5) ∧
    (timeoutConn.Close pipeOps (pipeWorld 5)).2.c.closeTimer
      = some { when := 5, pending := true, f := TimerFunc.callClose } ∧
    (run pipeOps (pipeWorld 5) [Event.close, Event.sleep 5]).trace
      = [Effect.afterFunc 5 TimerFunc.callClose, Effect.connClose,
         Effect.timerFire, Effect.connClose] :=
  ⟨rfl, rfl, rfl⟩

/-- C7, amended: on a connection whose watchdog is armed, an explicit Close only calls the
wrapped stream's Close and leaves the timer as it was, still armed for the same deadline;
once the clock reaches that deadline the timer fires and its function calls Close on the
wrapped stream a second time. -/
theorem close_only_delegates {σ : Type} (I : ConnOps σ) (w : World σ) (t : Timer)
    (ht : w.c.closeTimer = some t) (hp : t.pending = true) :
    (timeoutConn.Close I w).2.c.closeTimer = some t ∧
    (timeoutConn.Close I w).2.trace = w.trace ++ [Effect.connClose] ∧
    ∀ dt : Nat, t.when ≤ w.now + dt →
      (sleep I (timeoutConn.Close I w).2 dt).trace
        = w.trace ++ [Effect.connClose, Effect.timerFire, Effect.connClose] ∧
      (sleep I (timeoutConn.Close I w).2 dt).c.closeTimer
        = some { t with pending := false } := by
  refine ⟨ht, rfl, fun dt hdue => ?_⟩
  rw [sleep_fires I (timeoutConn.Close I w).2 t dt ht hp hdue]
  simp [timeoutConn.Close]

/-- Instance of the amended C7 on the connection accepted with timeout 5. -/
theorem close_only_delegates_witness :
    (pipeWorld 5).c.closeTimer = some { when := 5, pending := true, f := TimerFunc.callClose } ∧
    (timeoutConn.Close pipeOps (pipeWorld 5)).2.c.closeTimer
      = some { when := 5, pending := true, f := TimerFunc.callClose } :=
  ⟨rfl, (close_only_delegates pipeOps (pipeWorld 5)
    { when := 5, pending := true, f := TimerFunc.callClose } rfl rfl).1⟩

/-- C8 as stated fails: on the connection accepted with timeout 5, the watchdog fires at
instant 5; a Read issued then puts the timer back to pending, for instant 10, and at instant
10 the watchdog fires again and calls Close again. -/
theorem read_rearms_fired_watchdog_example :
    acceptWorld pipeListener (NewListener 1 5) 0 = some (pipeWorld 5) ∧
    (run pipeOps (pipeWorld 5) [Event.sleep 5]).c.closeTimer
      = some { when := 5, pending := false, f := TimerFunc.callClose } ∧
    (run pipeOps (pipeWorld 5) [Event.sleep 5, Event.read [1]]).c.closeTimer
      = some { when := 10, pending := true, f := TimerFunc.callClose } ∧
    (run pipeOps (pipeWorld 5) [Event.sleep 5, Event.read [1], Event.sleep 5]).trace
      = [Effect.afterFunc 5 TimerFunc.callClose, Effect.timerFire, Effect.connClose,
         Effect.timerReset 5, Effect.connRead [1], Effect.timerFire, Effect.connClose] :=
  ⟨rfl, rfl, rfl, rfl⟩

/-- C8, amended: once the watchdog has fired, no sequence of Close calls and waits puts it
back into the armed state or makes it fire again; a Read or a Write, however, arms it again
for the connection's timeout. -/
theorem fired_watchdog_rearmed_only_by_activity {σ : Type} (I : ConnOps σ) (w : World σ)
    (t : Timer) (ht : w.c.closeTimer = some t) (hp : t.pending = false) :
    (∀ es : List Event, (∀ e ∈ es, e.isActivity = false) →
      (run I w es).c.closeTimer = some t ∧
      fireCount (run I w es).trace = fireCount w.trace) ∧
    (∀ b : Bytes,
      (timeoutConn.Read I w b).2.c.closeTimer
        = some { when := timeWhen w.now w.c.timeout, pending := true, f := t.f } ∧
      (timeoutConn.Write I w b).2.c.closeTimer
        = some { when := timeWhen w.now w.c.timeout, pending := true, f := t.f }) := by
  refine ⟨fun es hes => run_fired_stays I t hp es w ht hes, fun b => ?_⟩
  simp [timeoutConn.Read, timeoutConn.Write, resetTimer_some w t ht, Timer.Reset]

/-- Instance of the amended C8 on the connection accepted with timeout 5, after its watchdog
has fired. -/
theorem fired_watchdog_rearmed_only_by_activity_witness :
    (run pipeOps (pipeWorld 5) [Event.sleep 5]).c.closeTimer
      = some { when := 5, pending := false, f := TimerFunc.callClose } ∧
    (timeoutConn.Read pipeOps (run pipeOps (pipeWorld 5) [Event.sleep 5]) [1]).2.c.closeTimer
      = some { when := 10, pending := true, f := TimerFunc.callClose } :=
  ⟨rfl, ((fired_watchdog_rearmed_only_by_activity pipeOps
    (run pipeOps (pipeWorld 5) [Event.sleep 5])
    { when := 5, pending := false, f := TimerFunc.callClose } rfl rfl).2 [1]).1⟩

/-! ## Construction -/

/-- C9 as stated fails: Listen with timeout 0 returns a listener and a nil error, and the
listener made by NewListener with timeout -1 accepts a connection. -/
theorem nonpositive_timeout_accepted_example :
    Listen pipeListen "tcp" ":0" 0 = (some (NewListener 1 0), none) ∧
    (NewListener 1 (-1)).timeout = -1 ∧
    (timeoutListener.Accept pipeListener (NewListener 1 (-1)) 0).err = none :=
  ⟨rfl, rfl, rfl⟩

/-- C9, amended: for every idle duration, the non-positive ones included, NewListener returns
a listener holding the given listener and that duration, and Listen fails exactly when
net.Listen fails, with the same error, and otherwise returns the listener NewListener makes
with that duration and a nil error. -/
theorem construction_never_validates {ℓ : Type} (netListen : String → String → Except Error ℓ)
    (network address : String) (l : ℓ) (timeout : Duration) :
    (NewListener l timeout).Listener = l ∧
    (NewListener l timeout).timeout = timeout ∧
    (∀ ln, netListen network address = Except.ok ln →
      Listen netListen network address timeout = (some (NewListener ln timeout), none)) ∧
    (∀ e, netListen network address = Except.error e →
      Listen netListen network address timeout = (none, some e)) := by
  refine ⟨rfl, rfl, fun ln h => ?_, fun e h => ?_⟩ <;> simp [Listen, h]

/-- C10 as stated fails: the connection accepted from a listener with timeout 0 has a
non-nil timer, pending and due at instant 0; a Read resets it; and at the next step of the
clock the watchdog fires and closes the connection. -/
theorem nonpositive_timeout_starts_timer_example :
    acceptWorld pipeListener (NewListener 1 0) 0 = some (pipeWorld 0) ∧
    (pipeWorld 0).c.closeTimer
      = some { when := 0, pending := true, f := TimerFunc.callClose } ∧
    (timeoutConn.Read pipeOps (pipeWorld 0) [1]).2.trace
      = [Effect.afterFunc 0 TimerFunc.callClose, Effect.timerReset 0, Effect.connRead [1]] ∧
    (sleep pipeOps (pipeWorld 0) 0).trace
      = [Effect.afterFunc 0 TimerFunc.callClose, Effect.timerFire, Effect.connClose] :=
  ⟨rfl, rfl, rfl, rfl⟩

/-- C10, amended: for every listener with a non-positive timeout, the connection returned by
a successful Accept has its timer started all the same, by `time.AfterFunc` with that
duration, so that it is pending and due at once; Read and Write each reset it to the same
duration before they delegate; and at the next step of the clock the watchdog fires and
calls Close. -/
theorem nonpositive_timeout_still_arms {ℓ σ : Type} (L : ListenerOps ℓ σ) (I : ConnOps σ)
    (l : timeoutListener ℓ) (now : Int) (nc : σ) (hto : l.timeout ≤ 0)
    (h : (L.Accept l.Listener).2 = Except.ok nc) :
    (timeoutListener.Accept L l now).conn =
      ConnValue.wrapped
        { Conn := nc, timeout := l.timeout,
          closeTimer := some { when := now, pending := true, f := TimerFunc.callClose } } ∧
    (timeoutListener.Accept L l now).effects
      = [Effect.afterFunc l.timeout TimerFunc.callClose] ∧
    ∀ w0, acceptWorld L l now = some w0 →
      (∀ b : Bytes,
        (timeoutConn.Read I w0 b).2.trace
          = w0.trace ++ [Effect.timerReset l.timeout, Effect.connRead b] ∧
        (timeoutConn.Write I w0 b).2.trace
          = w0.trace ++ [Effect.timerReset l.timeout, Effect.connWrite b]) ∧
      (∀ dt : Nat,
        (sleep I w0 dt).trace = w0.trace ++ [Effect.timerFire, Effect.connClose]) := by
  have hwhen : timeWhen now l.timeout = now := by
    unfold timeWhen
    rw [if_pos hto]
  refine ⟨?_, ?_, fun w0 hacc => ?_⟩
  · simp [timeoutListener.Accept, h, timeoutConn.startTimer, AfterFunc, hwhen]
  · simp [timeoutListener.Accept, h, timeoutConn.startTimer]
  · simp [acceptWorld, timeoutListener.Accept, h, timeoutConn.startTimer, AfterFunc,
      hwhen] at hacc
    subst hacc
    refine ⟨fun b => ?_, fun dt => ?_⟩
    · simp [timeoutConn.Read, timeoutConn.Write, timeoutConn.resetTimer]
    · rw [sleep_fires I _ { when := now, pending := true, f := TimerFunc.callClose } dt rfl
        rfl (by simp)]

/-- Instance of the amended C10 on the listener with timeout 0. -/
theorem nonpositive_timeout_still_arms_witness :
    (NewListener 1 0).timeout ≤ 0 ∧
    (timeoutListener.Accept pipeListener (NewListener 1 0) 0).effects
      = [Effect.afterFunc 0 TimerFunc.callClose] :=
  ⟨by decide, (nonpositive_timeout_still_arms pipeListener pipeOps (NewListener 1 0) 0
    { closed := false, carried := 0 } (by decide) rfl).2.1⟩

end timeoutconn
